import Mathlib

/-!
Shallow embedding of `src/cubehelix.py` (jonathansick/cubehelix).

The source is a single function `cmap(start=0.5, rot=-1.5, gamma=1.0,
hue=1.2, reverse=False)` that builds a 256-entry cubehelix colormap
table.  Machine floats are modelled by real numbers.  The per-index
computation of the source is parameterised here by the level count `N`
(the source fixes `nlev = 256.`); `cmap` below instantiates `N = 256`
exactly as the source does.
-/

namespace Cubehelix

noncomputable section

/-- Line 62 of the source: `fract = np.arange(nlev)/(nlev-1.)`, the
entry at index `k`. -/
def fracts (N k : ℕ) : ℝ := (k : ℝ) / ((N : ℝ) - 1)

/-- Line 63: `angle = 2.0*pi * (start/3.0 + 1.0 + rot*fract)`, computed
from the unwarped fraction. -/
def angle (start rot : ℝ) (N k : ℕ) : ℝ :=
  2 * Real.pi * (start / 3 + 1 + rot * fracts N k)

/-- Line 64: `fract = fract**gamma` (real power, `Real.rpow`). -/
def fgamma (gamma : ℝ) (N k : ℕ) : ℝ := fracts N k ^ gamma

/-- Line 65: `amp = hue*fract*(1.-fract)/2.`. -/
def amp (hue gamma : ℝ) (N k : ℕ) : ℝ :=
  hue * fgamma gamma N k * (1 - fgamma gamma N k) / 2

/-- Line 68: `red = fract+amp*(-0.14861*np.cos(angle)+1.78277*np.sin(angle))`. -/
def redRaw (start rot gamma hue : ℝ) (N k : ℕ) : ℝ :=
  fgamma gamma N k + amp hue gamma N k *
    (-0.14861 * Real.cos (angle start rot N k) + 1.78277 * Real.sin (angle start rot N k))

/-- Line 69: `grn = fract+amp*(-0.29227*np.cos(angle)-0.90649*np.sin(angle))`. -/
def grnRaw (start rot gamma hue : ℝ) (N k : ℕ) : ℝ :=
  fgamma gamma N k + amp hue gamma N k *
    (-0.29227 * Real.cos (angle start rot N k) - 0.90649 * Real.sin (angle start rot N k))

/-- Line 70: `blu = fract+amp*(1.97294*np.cos(angle))`. -/
def bluRaw (start rot gamma hue : ℝ) (N k : ℕ) : ℝ :=
  fgamma gamma N k + amp hue gamma N k * (1.97294 * Real.cos (angle start rot N k))

/-- Lines 73-75: values above 1 are set to 1 (`x[np.where((x > 1.))] = 1.`). -/
def clipHigh (x : ℝ) : ℝ := if x > 1 then 1 else x

/-- Lines 77-79: values below 0 are set to 0 (`x[np.where((x < 0.))] = 0.`),
applied after the high clip. -/
def clipLow (x : ℝ) : ℝ := if x < 0 then 0 else x

/-- The composed per-channel clamp of lines 73-79: first the high pass,
then the low pass. -/
def clamp01 (x : ℝ) : ℝ := clipLow (clipHigh x)

/-- The red channel after clamping, before the optional reverse. -/
def redClip (start rot gamma hue : ℝ) (N k : ℕ) : ℝ :=
  clamp01 (redRaw start rot gamma hue N k)

/-- The green channel after clamping, before the optional reverse. -/
def grnClip (start rot gamma hue : ℝ) (N k : ℕ) : ℝ :=
  clamp01 (grnRaw start rot gamma hue N k)

/-- The blue channel after clamping, before the optional reverse. -/
def bluClip (start rot gamma hue : ℝ) (N k : ℕ) : ℝ :=
  clamp01 (bluRaw start rot gamma hue N k)

/-- Lines 82-85: `if reverse==True: red = red[::-1]` etc.; entry `k` of a
reversed length-`N` array is entry `N-1-k` of the original. -/
def redFinal (start rot gamma hue : ℝ) (reverse : Bool) (N k : ℕ) : ℝ :=
  if reverse then redClip start rot gamma hue N (N - 1 - k)
  else redClip start rot gamma hue N k

/-- Green channel entry after the optional reverse of lines 82-85. -/
def grnFinal (start rot gamma hue : ℝ) (reverse : Bool) (N k : ℕ) : ℝ :=
  if reverse then grnClip start rot gamma hue N (N - 1 - k)
  else grnClip start rot gamma hue N k

/-- Blue channel entry after the optional reverse of lines 82-85. -/
def bluFinal (start rot gamma hue : ℝ) (reverse : Bool) (N k : ℕ) : ℝ :=
  if reverse then bluClip start rot gamma hue N (N - 1 - k)
  else bluClip start rot gamma hue N k

/-- One row of the assembled table (lines 88-96): the domain coordinate
`float(k)/(nlev-1.)` together with the three channel values at index `k`
(the source stores each channel value twice in its segment tuples; the
two copies are equal, so one field per channel suffices). -/
structure Sample where
  t : ℝ
  r : ℝ
  g : ℝ
  b : ℝ

/-- Table row at index `k` for level count `N`. -/
def sampleAt (start rot gamma hue : ℝ) (reverse : Bool) (N k : ℕ) : Sample :=
  { t := fracts N k
    r := redFinal start rot gamma hue reverse N k
    g := grnFinal start rot gamma hue reverse N k
    b := bluFinal start rot gamma hue reverse N k }

/-- The source's `cmap`: `nlev = 256.` is fixed inside the function
(line 59), so the table row at index `k` uses `N = 256`. -/
def cmap (start rot gamma hue : ℝ) (reverse : Bool) (k : ℕ) : Sample :=
  sampleAt start rot gamma hue reverse 256 k

/-- The full table built by the loop of lines 91-94: 256 rows, the count
fixed inside the function and independent of every parameter. -/
def cmapTable (start rot gamma hue : ℝ) (reverse : Bool) : List Sample :=
  (List.range 256).map (cmap start rot gamma hue reverse)

/-- Reference formula of the spec for the red channel, written from the
spec text alone: with `angle = 2π·(start/3 + 1 + rot·t)`, `f = t^gamma`
and `amp = hue·f·(1−f)/2`, `red = f + amp·(−0.14861·cos(angle) +
1.78277·sin(angle))`. -/
def refRed (start rot gamma hue t : ℝ) : ℝ :=
  t ^ gamma + hue * t ^ gamma * (1 - t ^ gamma) / 2 *
    (-0.14861 * Real.cos (2 * Real.pi * (start / 3 + 1 + rot * t)) +
      1.78277 * Real.sin (2 * Real.pi * (start / 3 + 1 + rot * t)))

/-- Reference formula of the spec for the green channel:
`green = f + amp·(−0.29227·cos(angle) − 0.90649·sin(angle))`. -/
def refGrn (start rot gamma hue t : ℝ) : ℝ :=
  t ^ gamma + hue * t ^ gamma * (1 - t ^ gamma) / 2 *
    (-0.29227 * Real.cos (2 * Real.pi * (start / 3 + 1 + rot * t)) -
      0.90649 * Real.sin (2 * Real.pi * (start / 3 + 1 + rot * t)))

/-- Reference formula of the spec for the blue channel:
`blue = f + amp·(1.97294·cos(angle))`. -/
def refBlu (start rot gamma hue t : ℝ) : ℝ :=
  t ^ gamma + hue * t ^ gamma * (1 - t ^ gamma) / 2 *
    (1.97294 * Real.cos (2 * Real.pi * (start / 3 + 1 + rot * t)))

/-- Modelled from the spec: the single failure kind of §7; the source has
no error taxonomy (its `nlev` is a fixed literal), the spec prescribes
`InvalidSampleCount` for a degenerate sample count. -/
inductive GenError where
  | invalidSampleCount
deriving DecidableEq

/-- Modelled from the spec: the generic entry point of §4.1/§6.  The
source fixes `nlev = 256` and exposes no sample-count argument; the spec
opens `samples` as a parameter and prescribes raising
`InvalidSampleCount` when `samples ≤ 1`, otherwise returning the table
of `samples` rows. -/
def generate (start rot gamma hue : ℝ) (reverse : Bool) (samples : ℕ) :
    Except GenError (List Sample) :=
  if samples ≤ 1 then Except.error GenError.invalidSampleCount
  else Except.ok ((List.range samples).map (sampleAt start rot gamma hue reverse samples))

/-- Position of the clamped query in index space: `clamp01 v · (N−1)`. -/
def queryPos (N : ℕ) (v : ℝ) : ℝ := clamp01 v * ((N : ℝ) - 1)

/-- Lower index of the pair of samples bracketing the clamped query,
capped at `N − 2` so the upper index stays in range. -/
def bracketLo (N : ℕ) (v : ℝ) : ℕ := min (Int.toNat ⌊queryPos N v⌋) (N - 2)

/-- Linear blend of `a` and `b` with weight `w` on `b`. -/
def lerp (a b w : ℝ) : ℝ := (1 - w) * a + w * b

/-- Modelled from the spec: the continuous lookup `interpolate` of §3/§6.
The source returns a matplotlib `LinearSegmentedColormap` and leaves the
piecewise-linear lookup to that excluded consumer; the spec prescribes
clamping the query to [0,1] and linearly interpolating between the two
bracketing samples. -/
def interpolate (start rot gamma hue : ℝ) (reverse : Bool) (N : ℕ) (v : ℝ) :
    ℝ × ℝ × ℝ :=
  (lerp (sampleAt start rot gamma hue reverse N (bracketLo N v)).r
      (sampleAt start rot gamma hue reverse N (bracketLo N v + 1)).r
      (queryPos N v - (bracketLo N v : ℝ)),
   lerp (sampleAt start rot gamma hue reverse N (bracketLo N v)).g
      (sampleAt start rot gamma hue reverse N (bracketLo N v + 1)).g
      (queryPos N v - (bracketLo N v : ℝ)),
   lerp (sampleAt start rot gamma hue reverse N (bracketLo N v)).b
      (sampleAt start rot gamma hue reverse N (bracketLo N v + 1)).b
      (queryPos N v - (bracketLo N v : ℝ)))

end

/-! Basic lemmas about the clamp. -/

theorem clamp01_nonneg (x : ℝ) : 0 ≤ clamp01 x := by
  unfold clamp01 clipLow clipHigh
  split_ifs <;> linarith

theorem clamp01_le_one (x : ℝ) : clamp01 x ≤ 1 := by
  unfold clamp01 clipLow clipHigh
  split_ifs <;> linarith

theorem clamp01_of_mem (x : ℝ) (h0 : 0 ≤ x) (h1 : x ≤ 1) : clamp01 x = x := by
  unfold clamp01 clipLow clipHigh
  split_ifs <;> linarith

theorem clamp01_idem (x : ℝ) : clamp01 (clamp01 x) = clamp01 x :=
  clamp01_of_mem _ (clamp01_nonneg x) (clamp01_le_one x)

/-! Claim theorems. -/

/-- Claim C1: for every configuration (any real start, rot, gamma, hue, any
boolean reverse) and every index `k < 256`, the sample's red, green and
blue values each lie in [0,1], each channel being independently clamped. -/
theorem channels_in_unit_interval (start rot gamma hue : ℝ) (reverse : Bool)
    (k : ℕ) (hk : k < 256) :
    (0 ≤ (cmap start rot gamma hue reverse k).r ∧
      (cmap start rot gamma hue reverse k).r ≤ 1) ∧
    (0 ≤ (cmap start rot gamma hue reverse k).g ∧
      (cmap start rot gamma hue reverse k).g ≤ 1) ∧
    (0 ≤ (cmap start rot gamma hue reverse k).b ∧
      (cmap start rot gamma hue reverse k).b ≤ 1) := by
  unfold cmap sampleAt redFinal grnFinal bluFinal redClip grnClip bluClip
  split_ifs <;>
    exact ⟨⟨clamp01_nonneg _, clamp01_le_one _⟩, ⟨clamp01_nonneg _, clamp01_le_one _⟩,
      ⟨clamp01_nonneg _, clamp01_le_one _⟩⟩

/-- Witness for C1 at the default configuration and index 7. -/
theorem channels_in_unit_interval_witness :
    (0 ≤ (cmap 0.5 (-1.5) 1 1.2 false 7).r ∧ (cmap 0.5 (-1.5) 1 1.2 false 7).r ≤ 1) ∧
    (0 ≤ (cmap 0.5 (-1.5) 1 1.2 false 7).g ∧ (cmap 0.5 (-1.5) 1 1.2 false 7).g ≤ 1) ∧
    (0 ≤ (cmap 0.5 (-1.5) 1 1.2 false 7).b ∧ (cmap 0.5 (-1.5) 1 1.2 false 7).b ≤ 1) :=
  channels_in_unit_interval 0.5 (-1.5) 1 1.2 false 7 (by norm_num)

/-- Claim C2: for every configuration and index, the pre-clamp channel values
computed by the source equal the spec's reference formulas evaluated at
the unwarped `t = k/(N-1)`, with exactly the stated coefficients. -/
theorem raw_channels_match_reference (start rot gamma hue : ℝ) (N k : ℕ) :
    redRaw start rot gamma hue N k = refRed start rot gamma hue (fracts N k) ∧
    grnRaw start rot gamma hue N k = refGrn start rot gamma hue (fracts N k) ∧
    bluRaw start rot gamma hue N k = refBlu start rot gamma hue (fracts N k) :=
  ⟨rfl, rfl, rfl⟩

/-- Claim C3: for every configuration, the `t` coordinates satisfy `t 0 = 0`,
`t 255 = 1`, are strictly increasing, evenly spaced with step `1/255`,
and equal `k/(N-1)` with `N = 256`. -/
theorem t_coordinates (start rot gamma hue : ℝ) (reverse : Bool) :
    (cmap start rot gamma hue reverse 0).t = 0 ∧
    (cmap start rot gamma hue reverse 255).t = 1 ∧
    (∀ j k : ℕ, j < k →
      (cmap start rot gamma hue reverse j).t < (cmap start rot gamma hue reverse k).t) ∧
    (∀ k : ℕ, (cmap start rot gamma hue reverse (k + 1)).t -
      (cmap start rot gamma hue reverse k).t = 1 / 255) ∧
    (∀ k : ℕ, (cmap start rot gamma hue reverse k).t = (k : ℝ) / 255) := by
  refine ⟨?_, ?_, ?_, ?_, ?_⟩
  · norm_num [cmap, sampleAt, fracts]
  · norm_num [cmap, sampleAt, fracts]
  · intro j k hjk
    have : ((256 : ℕ) : ℝ) - 1 = 255 := by norm_num
    simp only [cmap, sampleAt, fracts, this]
    exact div_lt_div_of_pos_right (by exact_mod_cast hjk) (by norm_num)
  · intro k
    simp only [cmap, sampleAt, fracts]
    push_cast
    ring
  · intro k
    norm_num [cmap, sampleAt, fracts]

/-- Witness for C3: endpoint values and a concrete strict increase. -/
theorem t_coordinates_witness :
    (cmap 0.5 (-1.5) 1 1.2 false 0).t = 0 ∧
    (cmap 0.5 (-1.5) 1 1.2 false 3).t < (cmap 0.5 (-1.5) 1 1.2 false 7).t :=
  ⟨(t_coordinates 0.5 (-1.5) 1 1.2 false).1,
    (t_coordinates 0.5 (-1.5) 1 1.2 false).2.2.1 3 7 (by norm_num)⟩

/-- Claim C4: the palette generated with `reverse = true` carries at index `k`
exactly the color the forward palette carries at index `255 - k`, while
the `t` coordinate at each index is identical between the two. -/
theorem reversal_law (start rot gamma hue : ℝ) (k : ℕ) (hk : k < 256) :
    (cmap start rot gamma hue true k).r = (cmap start rot gamma hue false (255 - k)).r ∧
    (cmap start rot gamma hue true k).g = (cmap start rot gamma hue false (255 - k)).g ∧
    (cmap start rot gamma hue true k).b = (cmap start rot gamma hue false (255 - k)).b ∧
    (cmap start rot gamma hue true k).t = (cmap start rot gamma hue false k).t := by
  simp [cmap, sampleAt, redFinal, grnFinal, bluFinal]

/-- Witness for C4 at the default numeric parameters and index 10. -/
theorem reversal_law_witness :
    (cmap 0.5 (-1.5) 1 1.2 true 10).r = (cmap 0.5 (-1.5) 1 1.2 false (255 - 10)).r ∧
    (cmap 0.5 (-1.5) 1 1.2 true 10).g = (cmap 0.5 (-1.5) 1 1.2 false (255 - 10)).g ∧
    (cmap 0.5 (-1.5) 1 1.2 true 10).b = (cmap 0.5 (-1.5) 1 1.2 false (255 - 10)).b ∧
    (cmap 0.5 (-1.5) 1 1.2 true 10).t = (cmap 0.5 (-1.5) 1 1.2 false 10).t :=
  reversal_law 0.5 (-1.5) 1 1.2 10 (by norm_num)

/-- Claim C10: the generated table always has exactly 256 entries, whatever
the parameters are; the sample count is fixed inside the function. -/
theorem table_has_256_entries (start rot gamma hue : ℝ) (reverse : Bool) :
    (cmapTable start rot gamma hue reverse).length = 256 := by
  simp [cmapTable]

/-! Helper lemmas about the fraction grid and the gamma-warped fraction. -/

theorem fracts256_nonneg (k : ℕ) : 0 ≤ fracts 256 k := by
  have h : fracts 256 k = (k : ℝ) / 255 := by norm_num [fracts]
  rw [h]
  positivity

theorem fracts256_le_one (k : ℕ) (hk : k ≤ 255) : fracts 256 k ≤ 1 := by
  have h : fracts 256 k = (k : ℝ) / 255 := by norm_num [fracts]
  rw [h, div_le_one (by norm_num)]
  exact_mod_cast hk

theorem fracts256_last : fracts 256 255 = 1 := by norm_num [fracts]

theorem clamp01_zero : clamp01 0 = 0 := clamp01_of_mem 0 le_rfl zero_le_one

theorem clamp01_one : clamp01 1 = 1 := clamp01_of_mem 1 zero_le_one le_rfl

theorem first_sample_black (start rot gamma hue : ℝ) (hg : gamma ≠ 0) :
    (cmap start rot gamma hue false 0).r = 0 ∧
    (cmap start rot gamma hue false 0).g = 0 ∧
    (cmap start rot gamma hue false 0).b = 0 := by
  have hf : fgamma gamma 256 0 = 0 := by
    simp [fgamma, fracts, Real.zero_rpow hg]
  refine ⟨?_, ?_, ?_⟩ <;>
    simp [cmap, sampleAt, redFinal, grnFinal, bluFinal, redClip, grnClip, bluClip,
      redRaw, grnRaw, bluRaw, amp, hf, clamp01_zero]

theorem last_sample_white (start rot gamma hue : ℝ) :
    (cmap start rot gamma hue false 255).r = 1 ∧
    (cmap start rot gamma hue false 255).g = 1 ∧
    (cmap start rot gamma hue false 255).b = 1 := by
  have hf : fgamma gamma 256 255 = 1 := by
    rw [fgamma, fracts256_last, Real.one_rpow]
  refine ⟨?_, ?_, ?_⟩ <;>
    simp [cmap, sampleAt, redFinal, grnFinal, bluFinal, redClip, grnClip, bluClip,
      redRaw, grnRaw, bluRaw, amp, hf, clamp01_one]

/-- Claim C5: under the default configuration, the first sample is exactly
black and the last sample is exactly white. -/
theorem default_endpoints :
    ((cmap 0.5 (-1.5) 1 1.2 false 0).r = 0 ∧ (cmap 0.5 (-1.5) 1 1.2 false 0).g = 0 ∧
      (cmap 0.5 (-1.5) 1 1.2 false 0).b = 0) ∧
    ((cmap 0.5 (-1.5) 1 1.2 false 255).r = 1 ∧ (cmap 0.5 (-1.5) 1 1.2 false 255).g = 1 ∧
      (cmap 0.5 (-1.5) 1 1.2 false 255).b = 1) :=
  ⟨first_sample_black 0.5 (-1.5) 1 1.2 one_ne_zero, last_sample_white 0.5 (-1.5) 1 1.2⟩

/-- Claim C9: for every configuration with positive gamma and reverse = false,
the first sample is exactly black and the last sample exactly white,
because the amplitude vanishes at both ends. -/
theorem endpoints_black_white (start rot gamma hue : ℝ) (hg : 0 < gamma) :
    ((cmap start rot gamma hue false 0).r = 0 ∧ (cmap start rot gamma hue false 0).g = 0 ∧
      (cmap start rot gamma hue false 0).b = 0) ∧
    ((cmap start rot gamma hue false 255).r = 1 ∧ (cmap start rot gamma hue false 255).g = 1 ∧
      (cmap start rot gamma hue false 255).b = 1) :=
  ⟨first_sample_black start rot gamma hue hg.ne', last_sample_white start rot gamma hue⟩

/-- Witness for C9 at start = 2, rot = 1, gamma = 2, hue = 3. -/
theorem endpoints_black_white_witness :
    ((cmap 2 1 2 3 false 0).r = 0 ∧ (cmap 2 1 2 3 false 0).g = 0 ∧
      (cmap 2 1 2 3 false 0).b = 0) ∧
    ((cmap 2 1 2 3 false 255).r = 1 ∧ (cmap 2 1 2 3 false 255).g = 1 ∧
      (cmap 2 1 2 3 false 255).b = 1) :=
  endpoints_black_white 2 1 2 3 (by norm_num)

/-- Counterexample to C6 as stated: with reverse = true (a value of "the
other parameters"), hue = 0 and gamma = 1, the sample at index 0 has
r = 1 while t^gamma = 0, so r = t^gamma fails. -/
theorem grayscale_counterexample :
    (cmap 0 0 1 0 true 0).r ≠ ((cmap 0 0 1 0 true 0).t) ^ (1 : ℝ) := by
  have hr : (cmap 0 0 1 0 true 0).r = 1 := by
    simp [cmap, sampleAt, redFinal, redClip, redRaw, amp, fgamma, fracts256_last,
      Real.rpow_one, clamp01_one]
  have ht : ((cmap 0 0 1 0 true 0).t) ^ (1 : ℝ) = 0 := by
    simp [cmap, sampleAt, fracts, Real.rpow_one]
  rw [hr, ht]
  norm_num

/-- Claim C6 amended: with hue = 0, positive gamma and reverse = false, every
sample satisfies r = g = b = t^gamma, a pure grayscale ramp. -/
theorem grayscale_when_hue_zero (start rot gamma : ℝ) (k : ℕ)
    (hg : 0 < gamma) (hk : k < 256) :
    (cmap start rot gamma 0 false k).r = (cmap start rot gamma 0 false k).g ∧
    (cmap start rot gamma 0 false k).g = (cmap start rot gamma 0 false k).b ∧
    (cmap start rot gamma 0 false k).b = ((cmap start rot gamma 0 false k).t) ^ gamma := by
  have hf0 : 0 ≤ fracts 256 k ^ gamma := Real.rpow_nonneg (fracts256_nonneg k) gamma
  have hf1 : fracts 256 k ^ gamma ≤ 1 :=
    Real.rpow_le_one (fracts256_nonneg k) (fracts256_le_one k (by omega)) hg.le
  have hcl : clamp01 (fracts 256 k ^ gamma) = fracts 256 k ^ gamma := clamp01_of_mem _ hf0 hf1
  have hr : redRaw start rot gamma 0 256 k = fgamma gamma 256 k := by
    simp [redRaw, amp]
  have hgn : grnRaw start rot gamma 0 256 k = fgamma gamma 256 k := by
    simp [grnRaw, amp]
  have hb : bluRaw start rot gamma 0 256 k = fgamma gamma 256 k := by
    simp [bluRaw, amp]
  refine ⟨?_, ?_, ?_⟩ <;>
    simp [cmap, sampleAt, redFinal, grnFinal, bluFinal, redClip, grnClip, bluClip,
      hr, hgn, hb, hcl, fgamma]

/-- Witness for C6's amended theorem at gamma = 2, index 9. -/
theorem grayscale_when_hue_zero_witness :
    (cmap 1 2 2 0 false 9).r = (cmap 1 2 2 0 false 9).g ∧
    (cmap 1 2 2 0 false 9).g = (cmap 1 2 2 0 false 9).b ∧
    (cmap 1 2 2 0 false 9).b = ((cmap 1 2 2 0 false 9).t) ^ (2 : ℝ) :=
  grayscale_when_hue_zero 1 2 2 9 (by norm_num) (by norm_num)

/-- Claim C7: the spec-modelled generator fails with InvalidSampleCount at
sample counts 0 and 1 and returns the table for every count above 1. -/
theorem generate_sample_count (start rot gamma hue : ℝ) (reverse : Bool) :
    generate start rot gamma hue reverse 0 = Except.error GenError.invalidSampleCount ∧
    generate start rot gamma hue reverse 1 = Except.error GenError.invalidSampleCount ∧
    ∀ n : ℕ, 1 < n → generate start rot gamma hue reverse n =
      Except.ok ((List.range n).map (sampleAt start rot gamma hue reverse n)) := by
  refine ⟨rfl, rfl, ?_⟩
  intro n hn
  rw [generate, if_neg (by omega)]

/-- Witness for C7 at the default numeric parameters and 5 samples. -/
theorem generate_sample_count_witness :
    generate 0.5 (-1.5) 1 1.2 false 5 =
      Except.ok ((List.range 5).map (sampleAt 0.5 (-1.5) 1 1.2 false 5)) :=
  (generate_sample_count 0.5 (-1.5) 1 1.2 false).2.2 5 (by norm_num)

/-! Helper lemmas for the continuous lookup. -/

theorem queryPos_clamp (N : ℕ) (v : ℝ) : queryPos N (clamp01 v) = queryPos N v := by
  rw [queryPos, queryPos, clamp01_idem]

theorem bracketLo_clamp (N : ℕ) (v : ℝ) : bracketLo N (clamp01 v) = bracketLo N v := by
  rw [bracketLo, bracketLo, queryPos_clamp]

theorem levels_sub_one_pos (N : ℕ) (hN : 2 ≤ N) : (0 : ℝ) < (N : ℝ) - 1 := by
  have h : (2 : ℝ) ≤ (N : ℝ) := by exact_mod_cast hN
  linarith

theorem queryPos_nonneg (N : ℕ) (v : ℝ) (hN : 2 ≤ N) : 0 ≤ queryPos N v :=
  mul_nonneg (clamp01_nonneg v) (levels_sub_one_pos N hN).le

theorem queryPos_le (N : ℕ) (v : ℝ) (hN : 2 ≤ N) : queryPos N v ≤ (N : ℝ) - 1 := by
  calc queryPos N v ≤ 1 * ((N : ℝ) - 1) :=
        mul_le_mul_of_nonneg_right (clamp01_le_one v) (levels_sub_one_pos N hN).le
    _ = (N : ℝ) - 1 := one_mul _

theorem bracketLo_cast_le (N : ℕ) (v : ℝ) (hN : 2 ≤ N) :
    (bracketLo N v : ℝ) ≤ queryPos N v := by
  have hfl : 0 ≤ ⌊queryPos N v⌋ := Int.floor_nonneg.mpr (queryPos_nonneg N v hN)
  have h1 : bracketLo N v ≤ (⌊queryPos N v⌋).toNat := min_le_left _ _
  have h2 : (((⌊queryPos N v⌋).toNat : ℕ) : ℝ) = ((⌊queryPos N v⌋ : ℤ) : ℝ) := by
    exact_mod_cast Int.toNat_of_nonneg hfl
  calc (bracketLo N v : ℝ) ≤ (((⌊queryPos N v⌋).toNat : ℕ) : ℝ) := by exact_mod_cast h1
    _ = ((⌊queryPos N v⌋ : ℤ) : ℝ) := h2
    _ ≤ queryPos N v := Int.floor_le _

theorem queryPos_le_bracketLo_succ (N : ℕ) (v : ℝ) (hN : 2 ≤ N) :
    queryPos N v ≤ (bracketLo N v : ℝ) + 1 := by
  by_cases h : (⌊queryPos N v⌋).toNat ≤ N - 2
  · have hi : bracketLo N v = (⌊queryPos N v⌋).toNat := min_eq_left h
    have hfl : 0 ≤ ⌊queryPos N v⌋ := Int.floor_nonneg.mpr (queryPos_nonneg N v hN)
    have h2 : (((⌊queryPos N v⌋).toNat : ℕ) : ℝ) = ((⌊queryPos N v⌋ : ℤ) : ℝ) := by
      exact_mod_cast Int.toNat_of_nonneg hfl
    rw [hi, h2]
    exact (Int.lt_floor_add_one _).le
  · have hi : bracketLo N v = N - 2 := min_eq_right (by omega)
    have hc : ((N - 2 : ℕ) : ℝ) = (N : ℝ) - 2 := by
      rw [Nat.cast_sub hN]
      norm_num
    rw [hi, hc]
    have := queryPos_le N v hN
    linarith

theorem weight_eq (N i : ℕ) (hN : 2 ≤ N) (c : ℝ) :
    (c - fracts N i) / (fracts N (i + 1) - fracts N i) = c * ((N : ℝ) - 1) - i := by
  have hD : ((N : ℝ) - 1) ≠ 0 := (levels_sub_one_pos N hN).ne'
  unfold fracts
  push_cast
  field_simp

theorem queryPos_zero (N : ℕ) : queryPos N 0 = 0 := by
  rw [queryPos, clamp01_zero, zero_mul]

theorem bracketLo_zero (N : ℕ) : bracketLo N 0 = 0 := by
  rw [bracketLo, queryPos_zero]
  simp

theorem queryPos_one (N : ℕ) : queryPos N 1 = (N : ℝ) - 1 := by
  rw [queryPos, clamp01_one, one_mul]

theorem bracketLo_one (N : ℕ) (hN : 2 ≤ N) : bracketLo N 1 = N - 2 := by
  rw [bracketLo, queryPos_one]
  have h : ((N : ℝ) - 1) = ((N - 1 : ℕ) : ℝ) := by
    rw [Nat.cast_sub (by omega)]
    norm_num
  rw [h, Int.floor_natCast, Int.toNat_natCast]
  exact min_eq_right (by omega)

/-- Claim C8: the continuous lookup clamps its query to [0,1] first, returns
the linear interpolation of the two samples whose t coordinates bracket
the clamped query, and returns the boundary sample's color exactly at
the endpoint queries 0 and 1. -/
theorem interpolate_spec (start rot gamma hue : ℝ) (reverse : Bool) (N : ℕ) (v : ℝ)
    (hN : 2 ≤ N) :
    interpolate start rot gamma hue reverse N v =
      interpolate start rot gamma hue reverse N (clamp01 v) ∧
    (∃ i : ℕ, i + 1 ≤ N - 1 ∧
      (sampleAt start rot gamma hue reverse N i).t ≤ clamp01 v ∧
      clamp01 v ≤ (sampleAt start rot gamma hue reverse N (i + 1)).t ∧
      interpolate start rot gamma hue reverse N v =
        (lerp (sampleAt start rot gamma hue reverse N i).r
            (sampleAt start rot gamma hue reverse N (i + 1)).r
            ((clamp01 v - (sampleAt start rot gamma hue reverse N i).t) /
              ((sampleAt start rot gamma hue reverse N (i + 1)).t -
                (sampleAt start rot gamma hue reverse N i).t)),
          lerp (sampleAt start rot gamma hue reverse N i).g
            (sampleAt start rot gamma hue reverse N (i + 1)).g
            ((clamp01 v - (sampleAt start rot gamma hue reverse N i).t) /
              ((sampleAt start rot gamma hue reverse N (i + 1)).t -
                (sampleAt start rot gamma hue reverse N i).t)),
          lerp (sampleAt start rot gamma hue reverse N i).b
            (sampleAt start rot gamma hue reverse N (i + 1)).b
            ((clamp01 v - (sampleAt start rot gamma hue reverse N i).t) /
              ((sampleAt start rot gamma hue reverse N (i + 1)).t -
                (sampleAt start rot gamma hue reverse N i).t)))) ∧
    interpolate start rot gamma hue reverse N 0 =
      ((sampleAt start rot gamma hue reverse N 0).r,
        (sampleAt start rot gamma hue reverse N 0).g,
        (sampleAt start rot gamma hue reverse N 0).b) ∧
    interpolate start rot gamma hue reverse N 1 =
      ((sampleAt start rot gamma hue reverse N (N - 1)).r,
        (sampleAt start rot gamma hue reverse N (N - 1)).g,
        (sampleAt start rot gamma hue reverse N (N - 1)).b) := by
  have hD : (0 : ℝ) < (N : ℝ) - 1 := levels_sub_one_pos N hN
  refine ⟨?_, ?_, ?_, ?_⟩
  · unfold interpolate
    rw [queryPos_clamp, bracketLo_clamp]
  · refine ⟨bracketLo N v, ?_, ?_, ?_, ?_⟩
    · have h : bracketLo N v ≤ N - 2 := min_le_right _ _
      omega
    · show fracts N (bracketLo N v) ≤ clamp01 v
      have h1 := bracketLo_cast_le N v hN
      rw [queryPos] at h1
      rw [fracts, div_le_iff₀ hD]
      exact h1
    · show clamp01 v ≤ fracts N (bracketLo N v + 1)
      have h2 := queryPos_le_bracketLo_succ N v hN
      rw [queryPos] at h2
      rw [fracts, le_div_iff₀ hD]
      push_cast
      linarith
    · have hw : (clamp01 v - fracts N (bracketLo N v)) /
          (fracts N (bracketLo N v + 1) - fracts N (bracketLo N v)) =
          queryPos N v - (bracketLo N v : ℝ) := by
        rw [weight_eq N (bracketLo N v) hN (clamp01 v)]
        rw [queryPos]
      simp only [interpolate, sampleAt]
      rw [hw]
  · unfold interpolate
    rw [queryPos_zero, bracketLo_zero]
    norm_num [lerp]
  · unfold interpolate
    rw [bracketLo_one N hN, queryPos_one]
    have hc : ((N - 2 : ℕ) : ℝ) = (N : ℝ) - 2 := by
      rw [Nat.cast_sub hN]
      norm_num
    have hidx : N - 2 + 1 = N - 1 := by omega
    rw [hidx, hc]
    have hw : (N : ℝ) - 1 - ((N : ℝ) - 2) = 1 := by ring
    rw [hw]
    norm_num [lerp]

/-- Witness for C8: the endpoint query 1 on the default palette returns
the last sample's color. -/
theorem interpolate_spec_witness :
    interpolate 0.5 (-1.5) 1 1.2 false 256 1 =
      ((sampleAt 0.5 (-1.5) 1 1.2 false 256 (256 - 1)).r,
        (sampleAt 0.5 (-1.5) 1 1.2 false 256 (256 - 1)).g,
        (sampleAt 0.5 (-1.5) 1 1.2 false 256 (256 - 1)).b) :=
  (interpolate_spec 0.5 (-1.5) 1 1.2 false 256 1 (by norm_num)).2.2.2

end Cubehelix
